import Mathlib

/-!
Verification of the saypi persistence layer (`say/repository.go`).

The repository moderates all storage access for per-user "moods" and
"conversations".  We embed the relevant operations shallowly:

* the `moods` table of one owner is a `List URow`, kept in ascending
  `id` (SequenceID) order — the SQL queries order by `id`, so holding the
  rows sorted loses no generality;
* SQL `lower(name) = lower(:name)` comparisons and Go's
  `strings.EqualFold` are both modelled by `foldEq`;
* the prepared statements (`listMoods`, `findMood`, `setMood`, …) become
  pure functions over those lists;
* fallible operations return `Except RepoError` mirroring the Go error
  values (`errCursorNotFound`, `errBuiltinMood`, raw store faults).
-/

namespace Saypi

/-- Lower-casing of a string, character by character: models SQL
`lower(x)` (all names in play are ASCII). -/
def lowerStr (s : String) : String := ⟨s.data.map Char.toLower⟩

/-- Case-insensitive string equality: models SQL `lower(x) = lower(y)`
and Go `strings.EqualFold` (all names in play are ASCII). -/
def foldEq (a b : String) : Bool := lowerStr a == lowerStr b

/-- The `say.Mood` struct: name, eyes, tongue, the `UserDefined` flag and
the unexported `id` field (the row's SequenceID; 0 for built-ins). -/
structure Mood where
  name : String
  eyes : String
  tongue : String
  userDefined : Bool
  id : Nat
deriving Repr, DecidableEq

/-- One row of the `moods` table belonging to the owner under
consideration: surrogate `id` (SERIAL), `name`, `eyes`, `tongue`. -/
structure URow where
  intId : Nat
  name : String
  eyes : String
  tongue : String
deriving Repr, DecidableEq

/-- Conversion performed by `listUserMoods`/`GetMood` when scanning a
`moods` row: sets `UserDefined = true` and copies the internal id. -/
def toUserMood (r : URow) : Mood :=
  { name := r.name, eyes := r.eyes, tongue := r.tongue, userDefined := true, id := r.intId }

/-- The package-level `builtinMoods` slice, in declaration order. -/
def builtinMoods : List Mood :=
  [ { name := "default", eyes := "oo", tongue := "  ", userDefined := false, id := 0 },
    { name := "borg",    eyes := "==", tongue := "  ", userDefined := false, id := 0 },
    { name := "dead",    eyes := "xx", tongue := "U ", userDefined := false, id := 0 },
    { name := "greedy",  eyes := "$$", tongue := "  ", userDefined := false, id := 0 },
    { name := "stoned",  eyes := "**", tongue := "U ", userDefined := false, id := 0 },
    { name := "tired",   eyes := "--", tongue := "  ", userDefined := false, id := 0 },
    { name := "wired",   eyes := "OO", tongue := "  ", userDefined := false, id := 0 },
    { name := "young",   eyes := "..", tongue := "  ", userDefined := false, id := 0 } ]

/-- The `listArgs` struct: `Before`, `After` cursors and `Limit`. -/
structure ListArgs where
  before : String
  after : String
  limit : Nat
deriving Repr, DecidableEq

/-- Errors produced by the repository: `errCursorNotFound`,
`errBuiltinMood`, and raw store errors passed through untranslated
(`storeFault` carries the SQLSTATE of a constraint violation, e.g.
`"23503"` for a foreign-key violation). `internalFault` stands for the
`errors.Errorf`/`errors.New` wrap-ups. -/
inductive RepoError where
  | cursorNotFound
  | builtinMood
  | storeFault (code : String)
  | internalFault
deriving Repr, DecidableEq

instance {ε α : Type} [DecidableEq ε] [DecidableEq α] : DecidableEq (Except ε α) :=
  fun a b =>
    match a, b with
    | .error x, .error y =>
      if h : x = y then .isTrue (h ▸ rfl)
      else .isFalse (fun hh => h (by cases hh; rfl))
    | .ok x, .ok y =>
      if h : x = y then .isTrue (h ▸ rfl)
      else .isFalse (fun hh => h (by cases hh; rfl))
    | .error _, .ok _ => .isFalse (fun hh => by cases hh)
    | .ok _, .error _ => .isFalse (fun hh => by cases hh)

/-- The `findMood` prepared statement: first row of the owner's table
whose name matches case-insensitively (unique by the
`unique_user_moods` index). -/
def findMoodRow (tbl : List URow) (name : String) : Option URow :=
  tbl.find? (fun r => foldEq r.name name)

/-- Cursor resolution inside `listUserMoods`: `cursorID := -1`, replaced
by the matching row's id when a cursor string is present; a missing row
is `errCursorNotFound`. -/
def resolveMoodCursor (tbl : List URow) (cursor : String) : Except RepoError Int :=
  if cursor = "" then .ok (-1)
  else
    match findMoodRow tbl cursor with
    | none => .error .cursorNotFound
    | some r => .ok (r.intId : Int)

/-- The `listUserMoods` method.  The prepared `listMoods` statement
keeps rows with `:cursor_id < 0 OR id {>|<} :cursor_id`, ordered by id
(ascending or descending), with SQL `LIMIT :limit + 1` where the Go code
already passes `args.Limit + 1` — hence `take (limit + 2)`.  Rows are
trimmed to `args.Limit` and `hasMore` reports whether more were fetched. -/
def listUserMoods (tbl : List URow) (asc : Bool) (args : ListArgs) :
    Except RepoError (List Mood × Bool) :=
  match resolveMoodCursor tbl (if asc then args.after else args.before) with
  | .error e => .error e
  | .ok cid =>
    let ordered := if asc then tbl else tbl.reverse
    let matching := ordered.filter fun r =>
      decide (cid < 0) ||
        (if asc then decide (cid < (r.intId : Int)) else decide ((r.intId : Int) < cid))
    let fetched := (matching.take (args.limit + 2)).map toUserMood
    .ok (fetched.take args.limit, decide (args.limit < fetched.length))

/-- The scanning loop of `listBuiltinMoods`: walk `seq`; before the
cursor name has been seen collect nothing; once `found`, append entries
and break as soon as `cap` (= `args.Limit + 1`) entries are collected. -/
def collectAfterCursor (seq : List Mood) (found : Bool) (cursor : String) (cap : Nat)
    (acc : List Mood) : Bool × List Mood :=
  match seq with
  | [] => (found, acc)
  | m :: rest =>
    if found then
      let acc2 := acc ++ [m]
      if acc2.length == cap then (true, acc2)
      else collectAfterCursor rest true cursor cap acc2
    else if m.name == cursor then collectAfterCursor rest true cursor cap acc
    else collectAfterCursor rest false cursor cap acc

/-- The `listBuiltinMoods` method: traverse the built-in catalog in
declaration order (or reversed when descending), starting at the cursor
name when one is set, collecting up to `args.Limit + 1` entries; an
unmatched cursor is `errCursorNotFound`; results are trimmed to
`args.Limit` with `hasMore` reporting the overshoot. -/
def listBuiltinMoods (asc : Bool) (args : ListArgs) :
    Except RepoError (List Mood × Bool) :=
  let cursor := if asc then args.after else args.before
  let cap := args.limit + 1
  let seq := if asc then builtinMoods else builtinMoods.reverse
  let start := args.after == "" && args.before == ""
  let res := collectAfterCursor seq start cursor cap []
  if !res.1 then .error .cursorNotFound
  else .ok (res.2.take args.limit, decide (args.limit < res.2.length))

/-- The `sortAsc` helper: ascending unless only `Before` is set. -/
def sortAsc (args : ListArgs) : Bool := args.after != "" || args.before == ""

/-- The `ListMoods` method: query the direction's primary tier
(user rows when ascending, built-ins when descending); on
`errCursorNotFound` fall through to the secondary tier with the original
arguments; on success shrink the budget, clear the cursors, early-return
`(moods, true)` when `len(moods)` equals the already-shrunk budget, and
otherwise append the secondary tier's entries, keeping its `hasMore`. -/
def ListMoods (tbl : List URow) (args : ListArgs) :
    Except RepoError (List Mood × Bool) :=
  let asc := sortAsc args
  let first := if asc then listUserMoods tbl true args else listBuiltinMoods false args
  match first with
  | .error e =>
    if e != .cursorNotFound then .error e
    else
      match (if asc then listBuiltinMoods true args else listUserMoods tbl false args) with
      | .error e2 => .error e2
      | .ok (more, hasMore) => .ok (more, hasMore)
  | .ok (moods, _) =>
    let args2 : ListArgs := { before := "", after := "", limit := args.limit - moods.length }
    if moods.length == args2.limit then .ok (moods, true)
    else
      match (if asc then listBuiltinMoods true args2 else listUserMoods tbl false args2) with
      | .error e2 => .error e2
      | .ok (more, hasMore) => .ok (moods ++ more, hasMore)

/-- Global order of the two-tier moods resource: dynamic rows by
ascending SequenceID, then the built-ins in declaration order. -/
def globalList (tbl : List URow) : List Mood :=
  tbl.map toUserMood ++ builtinMoods

/-- The `GetMood` method: scan the built-ins with an exact (case
sensitive) name comparison, then fall back to the `findMood` statement
(case-insensitive); `sql.ErrNoRows` becomes `(nil, nil)`, i.e. `none`. -/
def GetMood (tbl : List URow) (name : String) : Option Mood :=
  match builtinMoods.find? (fun b => b.name == name) with
  | some b => some b
  | none =>
    match findMoodRow tbl name with
    | some r => some (toUserMood r)
    | none => none

/-- The `isBuiltin` helper: `strings.EqualFold` comparison against every
built-in name. -/
def isBuiltin (name : String) : Bool :=
  builtinMoods.any (fun b => foldEq b.name name)

/-- The `setMood` SQL statement (single conditional UPDATE-or-INSERT):
update eyes/tongue of the row at `lower(name)` returning its id, or
insert `(user, lower(name), eyes, tongue)` when no row was updated,
returning the fresh id.  `nid` is the next value of the `id` SERIAL.
Result: (new rows, next SERIAL value, returned id). -/
def setMoodStore (tbl : List URow) (nid : Nat) (name eyes tongue : String) :
    List URow × Nat × Nat :=
  match findMoodRow tbl name with
  | some r =>
    (tbl.map (fun q => if foldEq q.name name then { q with eyes := eyes, tongue := tongue } else q),
     nid, r.intId)
  | none => (tbl ++ [{ intId := nid, name := lowerStr name, eyes := eyes, tongue := tongue }], nid + 1, nid)

/-- The `SetMood` method: reject built-in names (`errBuiltinMood`)
before any store access, then run the `setMood` statement and attach the
returned SequenceID to the mood.  A returned id of 0 is the
`errors.Errorf("Unable to update mood %q", ...)` branch.  The pair
`(rows, nid)` of the result is the post-call store state. -/
def SetMood (tbl : List URow) (nid : Nat) (mood : Mood) :
    (List URow × Nat) × Except RepoError Mood :=
  if isBuiltin mood.name then ((tbl, nid), .error .builtinMood)
  else
    let res := setMoodStore tbl nid mood.name mood.eyes mood.tongue
    if res.2.2 == 0 then ((res.1, res.2.1), .error .internalFault)
    else ((res.1, res.2.1), .ok { mood with id := res.2.2 })

/-- The `DeleteMood` method: reject built-in names before any store
access; otherwise run the `deleteMood` statement, ignoring the affected
row count.  `refIds` are the `mood_id` values referenced by rows of the
`lines` table: deleting a referenced mood makes the store raise the
`fk_lines_mood` foreign-key violation (SQLSTATE 23503), which the Go
code returns untranslated (`errors.Trace(err)`). -/
def DeleteMood (tbl : List URow) (refIds : List Nat) (name : String) :
    List URow × Option RepoError :=
  if isBuiltin name then (tbl, some .builtinMood)
  else if tbl.any (fun r => foldEq r.name name && refIds.contains r.intId) then
    (tbl, some (.storeFault "23503"))
  else (tbl.filter (fun r => !(foldEq r.name name)), none)

/-- The `say.Conversation` struct (public id, heading, internal id). -/
structure Conversation where
  id : String
  heading : String
  seq : Nat
deriving Repr, DecidableEq

/-- One row of the `conversations` table belonging to the owner under
consideration, in ascending `id` order. -/
structure CRow where
  intId : Nat
  publicId : String
  heading : String
deriving Repr, DecidableEq

/-- Scanning of a `conversations` row into a `Conversation`. -/
def toConversation (r : CRow) : Conversation :=
  { id := r.publicId, heading := r.heading, seq := r.intId }

/-- The `ListConversations` method: cursor resolution via `getConvo`
(exact public-id match, missing row is `errCursorNotFound`), then the
`listConvos` statement: rows strictly beyond the cursor id in the
chosen direction, `LIMIT :limit` with `args.Limit + 1` passed in,
trimmed to `args.Limit` with the overshoot reported as `hasMore`. -/
def ListConversations (tbl : List CRow) (args : ListArgs) :
    Except RepoError (List Conversation × Bool) :=
  let asc := sortAsc args
  let cursor := if asc then args.after else args.before
  let cidE : Except RepoError Int :=
    if cursor = "" then .ok (-1)
    else
      match tbl.find? (fun r => r.publicId == cursor) with
      | none => .error .cursorNotFound
      | some r => .ok (r.intId : Int)
  match cidE with
  | .error e => .error e
  | .ok cid =>
    let ordered := if asc then tbl else tbl.reverse
    let matching := ordered.filter fun r =>
      decide (cid < 0) ||
        (if asc then decide (cid < (r.intId : Int)) else decide ((r.intId : Int) < cid))
    let fetched := (matching.take (args.limit + 1)).map toConversation
    .ok (fetched.take args.limit, decide (args.limit < fetched.length))

/-- One row of the `lines` table: public id and owning conversation
(internal id); the remaining columns are irrelevant to the claims. -/
structure LRow where
  intId : Nat
  publicId : String
  convoId : Nat
deriving Repr, DecidableEq

/-- The `DeleteConversation` method: the `deleteConvo` statement deletes
where `public_id = :public_id` (within the owner), `ON DELETE CASCADE`
removes the conversation's lines, the affected row count is ignored and
`nil` is returned. -/
def DeleteConversation (convos : List CRow) (lines : List LRow) (convoID : String) :
    (List CRow × List LRow) × Option RepoError :=
  let gone := convos.filter (fun r => r.publicId == convoID)
  ((convos.filter (fun r => !(r.publicId == convoID)),
    lines.filter (fun l => !(gone.any (fun g => g.intId == l.convoId)))),
   none)

/-- The `DeleteLine` method: the `deleteLine` statement deletes the line
whose `public_id = :line_id` and whose conversation (joined by internal
id) has `public_id = :convo_id` within the owner; the affected row
count is ignored and `nil` is returned. -/
def DeleteLine (convos : List CRow) (lines : List LRow) (convoID lineID : String) :
    List LRow × Option RepoError :=
  (lines.filter (fun l =>
      !(l.publicId == lineID && convos.any (fun c => c.publicId == convoID && c.intId == l.convoId))),
   none)

/-- Digit characters of Go's `strconv.FormatUint(·, 36)`: `0-9` then
lowercase `a-z`. -/
def base36Digit (d : Nat) : Char :=
  if d < 10 then Char.ofNat (48 + d) else Char.ofNat (87 + d)

/-- Base-36 rendering, most significant digit first.  Structural
recursion on a fuel argument (`n / 36 < n` for `n ≥ 36`, so a fuel of
`n` always suffices and the `0` case is unreachable). -/
def base36Aux (fuel n : Nat) (acc : List Char) : List Char :=
  let d := base36Digit (n % 36)
  match fuel with
  | 0 => d :: acc
  | fuel + 1 => if n < 36 then d :: acc else base36Aux fuel (n / 36) (d :: acc)

/-- Go's `strconv.FormatUint(n, 36)`. -/
def formatBase36 (n : Nat) : String := String.mk (base36Aux n n [])

/-- The `maxInsertRetries` constant. -/
def maxInsertRetries : Nat := 16

/-- The `dbErrDupUnique` constant (Postgres unique-violation SQLSTATE). -/
def dbErrDupUnique : String := "23505"

/-- Outcome of one insert attempt, as reported by the store: success
(with the serial id assigned to the row) or an error; `isPq` states
whether the error is a `*pq.Error` and `code` its SQLSTATE. -/
inductive InsertOutcome where
  | ok (id : Nat)
  | storeErr (isPq : Bool) (code : String)
deriving Repr, DecidableEq

/-- Result of `NewConversation`/`InsertLine`: a created value, a
non-retryable store error returned as-is, or the
`errors.New("Unable to insert a new, unique …")` bound exhaustion. -/
inductive CreateResult (α : Type) where
  | created (v : α)
  | storeErr (isPq : Bool) (code : String)
  | exhausted
deriving Repr, DecidableEq

/-- The retry condition of the insert loops: Go retries exactly when the
error is a `*pq.Error` whose code is `dbErrDupUnique`; any other error
is returned immediately. -/
def retryableDup (o : InsertOutcome) : Bool :=
  match o with
  | .ok _ => false
  | .storeErr isPq code => isPq && code == dbErrDupUnique

/-- The `NewConversation` retry loop.  `oracle i` supplies, for attempt
`i`, the random draw of `rand.Int(rand.Reader, MaxInt64)` and the
store's response to inserting the rendered identifier.  The second
component of the result counts the insert attempts performed. -/
def newConversationAux (heading : String) (oracle : Nat → Nat × InsertOutcome) :
    Nat → Nat → CreateResult Conversation × Nat
  | 0, used => (.exhausted, used)
  | fuel + 1, used =>
    let (rv, oc) := oracle used
    let publicID := "cv_" ++ formatBase36 rv
    match oc with
    | .ok cid => (.created { id := publicID, heading := heading, seq := cid }, used + 1)
    | .storeErr isPq code =>
      if isPq && code == dbErrDupUnique then
        newConversationAux heading oracle fuel (used + 1)
      else (.storeErr isPq code, used + 1)

/-- The `NewConversation` method (the drawing of `rand.Int` itself is
assumed not to fail; its draws are the oracle's first components). -/
def NewConversation (heading : String) (oracle : Nat → Nat × InsertOutcome) :
    CreateResult Conversation × Nat :=
  newConversationAux heading oracle maxInsertRetries 0

/-- The `InsertLine` retry loop: identical to `newConversationAux` with
the `ln_` identifier kind; the created value is the public id stored
into `line.ID`. -/
def insertLineAux (oracle : Nat → Nat × InsertOutcome) :
    Nat → Nat → CreateResult String × Nat
  | 0, used => (.exhausted, used)
  | fuel + 1, used =>
    let (rv, oc) := oracle used
    let publicID := "ln_" ++ formatBase36 rv
    match oc with
    | .ok _ => (.created publicID, used + 1)
    | .storeErr isPq code =>
      if isPq && code == dbErrDupUnique then
        insertLineAux oracle fuel (used + 1)
      else (.storeErr isPq code, used + 1)

/-- The `InsertLine` method: resolve the conversation first (its absence
surfaces the raw `sql.ErrNoRows`, modelled as a non-pq store error with
no SQLSTATE), then run the bounded insert loop. -/
def InsertLine (convos : List CRow) (convoID : String)
    (oracle : Nat → Nat × InsertOutcome) : CreateResult String × Nat :=
  match convos.find? (fun c => c.publicId == convoID) with
  | none => (.storeErr false "", 0)
  | some _ => insertLineAux oracle maxInsertRetries 0

/-- One forward pagination step: the items of
`ListMoods(after := c, limit := 1)` (empty on error). -/
def pageAfter (tbl : List URow) (c : String) : List Mood :=
  match ListMoods tbl { before := "", after := c, limit := 1 } with
  | .ok (ms, _) => ms
  | .error _ => []

/-- One backward pagination step: the items of
`ListMoods(before := c, limit := 1)` (empty on error). -/
def pageBefore (tbl : List URow) (c : String) : List Mood :=
  match ListMoods tbl { before := c, after := "", limit := 1 } with
  | .ok (ms, _) => ms
  | .error _ => []

/-- Forward traversal: repeatedly list with `limit = 1`, chaining each
returned item's name as the next `After` cursor, until a page is empty. -/
def chainForwardAux (tbl : List URow) : String → Nat → List Mood
  | _, 0 => []
  | c, fuel + 1 =>
    match pageAfter tbl c with
    | [] => []
    | m :: _ => m :: chainForwardAux tbl m.name fuel

/-- Forward traversal from the start (no cursor). -/
def chainForward (tbl : List URow) (fuel : Nat) : List Mood :=
  chainForwardAux tbl "" fuel

/-- Backward traversal: starting from the last element of the global
order, repeatedly list with `limit = 1`, chaining `Before` cursors. -/
def chainBackwardAux (tbl : List URow) : String → Nat → List Mood
  | _, 0 => []
  | c, fuel + 1 =>
    match pageBefore tbl c with
    | [] => []
    | m :: _ => m :: chainBackwardAux tbl m.name fuel

/-- Backward traversal beginning with the last element of the global
order (the element a client would read off the end of a full listing). -/
def chainBackward (tbl : List URow) (fuel : Nat) : List Mood :=
  match (globalList tbl).getLast? with
  | none => []
  | some m => m :: chainBackwardAux tbl m.name fuel

/-- Invariants of an owner's `moods` table, as maintained by the schema
and the repository: rows in ascending SequenceID order (`id SERIAL`
primary key, queries order by it), names case-insensitively unique
(`unique_user_moods` index), never case-insensitively equal to a
built-in name (`SetMood` rejects those before writing), and non-empty
(the mood name is a non-empty URL path segment). -/
def moodsInvariant (tbl : List URow) : Prop :=
  List.Pairwise (fun a b => a.intId < b.intId) tbl ∧
  List.Pairwise (fun a b => foldEq a.name b.name = false) tbl ∧
  (∀ r ∈ tbl, ∀ b ∈ builtinMoods, foldEq r.name b.name = false) ∧
  (∀ r ∈ tbl, r.name ≠ "")

/-- Cursor/suffix alignment for forward (ascending) pagination: the
cursor `c` designates the position just before the suffix `s` of the
global order — either no cursor at the very start, or the name of the
dynamic row (resp. built-in) immediately preceding `s`. -/
inductive FAlign (tbl : List URow) : String → List Mood → Prop where
  | start : FAlign tbl "" (globalList tbl)
  | user (t1 t2 : List URow) (r : URow) :
      tbl = t1 ++ r :: t2 → FAlign tbl r.name (t2.map toUserMood ++ builtinMoods)
  | builtin (bp bs : List Mood) (m : Mood) :
      builtinMoods = bp ++ m :: bs → FAlign tbl m.name bs

/-- Cursor/suffix alignment for backward (descending) pagination over
the reversed global order. -/
inductive BAlign (tbl : List URow) : String → List Mood → Prop where
  | builtin (bp bs : List Mood) (m : Mood) :
      builtinMoods.reverse = bp ++ m :: bs →
      BAlign tbl m.name (bs ++ (tbl.map toUserMood).reverse)
  | user (t1 t2 : List URow) (r : URow) :
      tbl.reverse = t1 ++ r :: t2 → BAlign tbl r.name (t2.map toUserMood)



/-! ### Helper lemmas -/

theorem isBuiltin_of_fold {name : String} (h : ∃ b ∈ builtinMoods, foldEq b.name name = true) :
    isBuiltin name = true := by
  rcases h with ⟨b, hb, hf⟩
  unfold isBuiltin
  rw [List.any_eq_true]
  exact ⟨b, hb, hf⟩

theorem upd_preserves_id_name (tbl : List URow) (name eyes tongue : String) :
    (tbl.map fun q => if foldEq q.name name then { q with eyes := eyes, tongue := tongue } else q).map
        (fun q => (q.intId, q.name)) =
      tbl.map fun q => (q.intId, q.name) := by
  induction tbl with
  | nil => rfl
  | cons a t ih =>
    simp only [List.map_cons, ih]
    split <;> rfl

/-! ### C5: built-in moods are write-protected regardless of casing -/

/-- C5: for every owner state and every name that case-insensitively
equals a built-in mood name, `SetMood` and `DeleteMood` fail with
`errBuiltinMood` (ProtectedEntity) and leave the store unchanged. -/
theorem write_builtin_protected (tbl : List URow) (nid : Nat) (refIds : List Nat)
    (mood : Mood) (h : ∃ b ∈ builtinMoods, foldEq b.name mood.name = true) :
    SetMood tbl nid mood = ((tbl, nid), .error .builtinMood) ∧
    DeleteMood tbl refIds mood.name = (tbl, some .builtinMood) := by
  have hb := isBuiltin_of_fold h
  refine ⟨?_, ?_⟩
  · simp [SetMood, hb]
  · simp [DeleteMood, hb]

/-- C5 witness: the built-in "borg" written as "BORG". -/
theorem write_builtin_protected_witness :
    (∃ b ∈ builtinMoods, foldEq b.name "BORG" = true) ∧
    SetMood [⟨1, "cross", "><", "<>"⟩] 2 ⟨"BORG", "--", "  ", true, 0⟩ =
      (([⟨1, "cross", "><", "<>"⟩], 2), .error .builtinMood) ∧
    DeleteMood [⟨1, "cross", "><", "<>"⟩] [] "BORG" =
      ([⟨1, "cross", "><", "<>"⟩], some .builtinMood) := by
  have h : ∃ b ∈ builtinMoods, foldEq b.name "BORG" = true := by decide
  have hth := write_builtin_protected [⟨1, "cross", "><", "<>"⟩] 2 []
    ⟨"BORG", "--", "  ", true, 0⟩ h
  exact ⟨h, hth.1, hth.2⟩

/-! ### C9: built-ins in non-canonical casing are neither readable nor writable -/

/-- C9: a name that case-insensitively equals a built-in mood name but
does not match its declared casing exactly is invisible to `GetMood`
(which compares built-ins case-sensitively and finds no dynamic row),
yet `SetMood` and `DeleteMood` reject the same name as protected. -/
theorem getMood_builtin_casing_gap (tbl : List URow) (name : String) (nid : Nat)
    (refIds : List Nat) (mood : Mood) (hmn : mood.name = name)
    (hfold : ∃ b ∈ builtinMoods, foldEq b.name name = true)
    (hexact : ∀ b ∈ builtinMoods, b.name ≠ name)
    (hrows : ∀ r ∈ tbl, foldEq r.name name = false) :
    GetMood tbl name = none ∧
    SetMood tbl nid mood = ((tbl, nid), .error .builtinMood) ∧
    DeleteMood tbl refIds name = (tbl, some .builtinMood) := by
  have hb : isBuiltin name = true := isBuiltin_of_fold hfold
  have h1 : builtinMoods.find? (fun b => b.name == name) = none := by
    rw [List.find?_eq_none]
    intro b hbm
    simpa using hexact b hbm
  have h2 : findMoodRow tbl name = none := by
    unfold findMoodRow
    rw [List.find?_eq_none]
    intro r hr
    simp [hrows r hr]
  refine ⟨?_, ?_, ?_⟩
  · simp [GetMood, h1, h2]
  · simp [SetMood, hmn, hb]
  · simp [DeleteMood, hb]

/-- C9 witness: "BORG" against an owner with one unrelated mood. -/
theorem getMood_builtin_casing_gap_witness :
    GetMood [⟨1, "cross", "><", "<>"⟩] "BORG" = none ∧
    SetMood [⟨1, "cross", "><", "<>"⟩] 2 ⟨"BORG", "--", "  ", true, 0⟩ =
      (([⟨1, "cross", "><", "<>"⟩], 2), .error .builtinMood) ∧
    DeleteMood [⟨1, "cross", "><", "<>"⟩] [] "BORG" =
      ([⟨1, "cross", "><", "<>"⟩], some .builtinMood) :=
  getMood_builtin_casing_gap [⟨1, "cross", "><", "<>"⟩] "BORG" 2 []
    ⟨"BORG", "--", "  ", true, 0⟩ rfl (by decide) (by decide) (by decide)

/-! ### C8: SetMood sequence-id semantics -/

/-- C8: for a non-built-in name, `SetMood` on an existing dynamic row
updates only eyes and tongue (every row's SequenceID and name are
untouched, the SERIAL counter does not advance) and returns the mood
with the pre-existing SequenceID; with no existing row it inserts a
fresh row and returns the freshly assigned SequenceID. -/
theorem setMood_sequence_semantics (tbl : List URow) (nid : Nat)
    (name eyes tongue : String) (ud : Bool) (mid : Nat)
    (hnb : isBuiltin name = false) :
    (∀ r, findMoodRow tbl name = some r → 0 < r.intId →
      SetMood tbl nid ⟨name, eyes, tongue, ud, mid⟩ =
        ((tbl.map fun q => if foldEq q.name name then
            { q with eyes := eyes, tongue := tongue } else q, nid),
         .ok ⟨name, eyes, tongue, ud, r.intId⟩) ∧
      (tbl.map fun q => if foldEq q.name name then
          { q with eyes := eyes, tongue := tongue } else q).map (fun q => (q.intId, q.name)) =
        tbl.map fun q => (q.intId, q.name)) ∧
    (findMoodRow tbl name = none → 0 < nid →
      SetMood tbl nid ⟨name, eyes, tongue, ud, mid⟩ =
        ((tbl ++ [⟨nid, lowerStr name, eyes, tongue⟩], nid + 1),
         .ok ⟨name, eyes, tongue, ud, nid⟩)) := by
  refine ⟨?_, ?_⟩
  · intro r hfind hpos
    have hne : (r.intId == 0) = false := by
      simp [Nat.pos_iff_ne_zero.mp hpos]
    refine ⟨?_, upd_preserves_id_name tbl name eyes tongue⟩
    simp [SetMood, hnb, setMoodStore, hfind, hne]
  · intro hfind hpos
    have hne : (nid == 0) = false := by
      simp [Nat.pos_iff_ne_zero.mp hpos]
    simp [SetMood, hnb, setMoodStore, hfind, hne]

/-- C8 witness: update of an existing row and insert of a fresh one. -/
theorem setMood_sequence_semantics_witness :
    SetMood [⟨1, "cross", "><", "<>"⟩] 2 ⟨"CROSS", "[]", "{}", true, 0⟩ =
      (([⟨1, "cross", "[]", "{}"⟩], 2), .ok ⟨"CROSS", "[]", "{}", true, 1⟩) ∧
    SetMood [⟨1, "cross", "><", "<>"⟩] 2 ⟨"smile", "^^", "  ", true, 0⟩ =
      (([⟨1, "cross", "><", "<>"⟩, ⟨2, "smile", "^^", "  "⟩], 3),
       .ok ⟨"smile", "^^", "  ", true, 2⟩) := by
  constructor
  · have h := (setMood_sequence_semantics [⟨1, "cross", "><", "<>"⟩] 2
      "CROSS" "[]" "{}" true 0 (by decide)).1 ⟨1, "cross", "><", "<>"⟩ (by decide) (by decide)
    exact h.1.trans (by decide)
  · have h := (setMood_sequence_semantics [⟨1, "cross", "><", "<>"⟩] 2
      "smile" "^^" "  " true 0 (by decide)).2 (by decide) (by decide)
    exact h.trans (by decide)

/-! ### C10: deleting absent conversations and lines succeeds -/

/-- C10: `DeleteConversation` and `DeleteLine` never produce an error
(there is no NotFound outcome), and when no row matches the given
identifiers the store is left unchanged. -/
theorem delete_missing_succeeds (convos : List CRow) (lines : List LRow)
    (convoID lineID : String) :
    ((∀ c ∈ convos, c.publicId ≠ convoID) →
      DeleteConversation convos lines convoID = ((convos, lines), none)) ∧
    ((∀ l ∈ lines,
        ¬(l.publicId = lineID ∧ ∃ c ∈ convos, c.publicId = convoID ∧ c.intId = l.convoId)) →
      DeleteLine convos lines convoID lineID = (lines, none)) ∧
    (∀ cs ls cid, (DeleteConversation cs ls cid).2 = none) ∧
    (∀ cs ls cid lid, (DeleteLine cs ls cid lid).2 = none) := by
  refine ⟨?_, ?_, fun _ _ _ => rfl, fun _ _ _ _ => rfl⟩
  · intro hc
    have hcford : ∀ c ∈ convos, (c.publicId == convoID) = false := by
      intro c hcm
      simpa using hc c hcm
    have hgone : convos.filter (fun r => r.publicId == convoID) = [] := by
      rw [List.filter_eq_nil_iff]
      intro c hcm
      simp [hcford c hcm]
    have hkeep : convos.filter (fun r => !(r.publicId == convoID)) = convos := by
      rw [List.filter_eq_self]
      intro c hcm
      simp [hcford c hcm]
    simp only [DeleteConversation, hgone, hkeep, List.any_nil, Bool.not_false,
      List.filter_true]
  · intro hl
    have hkeep : lines.filter (fun l =>
        !(l.publicId == lineID &&
          convos.any (fun c => c.publicId == convoID && c.intId == l.convoId))) = lines := by
      rw [List.filter_eq_self]
      intro l hlm
      have hnl := hl l hlm
      by_cases hpid : l.publicId = lineID
      · have hany : convos.any (fun c => c.publicId == convoID && c.intId == l.convoId) = false := by
          rw [List.any_eq_false]
          intro c hcm
          intro hcontra
          simp only [Bool.and_eq_true, beq_iff_eq] at hcontra
          exact hnl ⟨hpid, c, hcm, hcontra.1, hcontra.2⟩
        simp [hany]
      · simp [hpid]
    simp only [DeleteLine, hkeep]

/-- C10 witness: deleting identifiers that name nothing. -/
theorem delete_missing_succeeds_witness :
    DeleteConversation [⟨1, "cv_a", "h"⟩] [⟨1, "ln_a", 1⟩] "cv_nope" =
      (([⟨1, "cv_a", "h"⟩], [⟨1, "ln_a", 1⟩]), none) ∧
    DeleteLine [⟨1, "cv_a", "h"⟩] [⟨1, "ln_a", 1⟩] "cv_a" "ln_nope" =
      ([⟨1, "ln_a", 1⟩], none) := by
  have h := delete_missing_succeeds [⟨1, "cv_a", "h"⟩] [⟨1, "ln_a", 1⟩] "cv_nope" "ln_nope"
  have h2 := delete_missing_succeeds [⟨1, "cv_a", "h"⟩] [⟨1, "ln_a", 1⟩] "cv_a" "ln_nope"
  exact ⟨h.1 (by decide), h2.2.1 (by decide)⟩

/-! ### C6: DeleteMood performs no outcome classification (code bug) -/

/-- C6 (code bug): the claim — matching the spec and the repository's
own tests — requires `DeleteMood` to fail with NotFound when the mood
does not exist and with a dependent-count domain error when lines
reference it.  The code does neither: deleting a nonexistent mood
returns success, and a foreign-key violation (SQLSTATE 23503) is
returned raw, untranslated. -/
theorem deleteMood_not_translated :
    DeleteMood [] [] "cross" = ([], none) ∧
    DeleteMood [⟨1, "cross", "><", "<>"⟩] [1] "cross" =
      ([⟨1, "cross", "><", "<>"⟩], some (.storeFault "23503")) := by decide

/-! ### C1: the two-tier page assembly truncates pages (code bug) -/

/-- C1 (code bug): with one dynamic mood and `limit = 2`, the primary
tier supplies fewer than `limit + 1` entries, so the claim requires the
page `[foo, default]`; `ListMoods` instead compares the page length
against the already-shrunk budget (`len(moods) == args.Limit` after
`args.Limit -= len(moods)`), returns early and never consults the
built-in tier: the page is `[foo]` with `hasMore = true`. -/
theorem listMoods_truncates_before_secondary :
    ListMoods [⟨1, "foo", "oo", "  "⟩] { before := "", after := "", limit := 2 } =
      .ok ([⟨"foo", "oo", "  ", true, 1⟩], true) ∧
    (globalList [⟨1, "foo", "oo", "  "⟩]).take 2 =
      [⟨"foo", "oo", "  ", true, 1⟩, ⟨"default", "oo", "  ", false, 0⟩] := by decide

/-! ### C2: hasMore is inaccurate (code bug) -/

/-- C2 (code bug): descending from "young" with `limit = 3` over an
owner with no dynamic moods returns `[wired, tired, stoned]` with
`hasMore = false`, although "greedy", "dead", "borg" and "default" lie
strictly beyond "stoned" in the descending global order (the merge
discards the primary tier's own `hasMore` and asks the secondary —
empty — tier instead). -/
theorem listMoods_hasMore_inaccurate :
    ListMoods [] { before := "young", after := "", limit := 3 } =
      .ok ([⟨"wired", "OO", "  ", false, 0⟩, ⟨"tired", "--", "  ", false, 0⟩,
            ⟨"stoned", "**", "U ", false, 0⟩], false) ∧
    (globalList []).reverse =
      [⟨"young", "..", "  ", false, 0⟩, ⟨"wired", "OO", "  ", false, 0⟩,
       ⟨"tired", "--", "  ", false, 0⟩, ⟨"stoned", "**", "U ", false, 0⟩,
       ⟨"greedy", "$$", "  ", false, 0⟩, ⟨"dead", "xx", "U ", false, 0⟩,
       ⟨"borg", "==", "  ", false, 0⟩, ⟨"default", "oo", "  ", false, 0⟩] := by decide

/-! ### C7: bounded identifier-collision retry -/

theorem newConversationAux_used_le (heading : String) (oracle : Nat → Nat × InsertOutcome) :
    ∀ fuel used, (newConversationAux heading oracle fuel used).2 ≤ used + fuel := by
  intro fuel
  induction fuel with
  | zero => intro used; simp [newConversationAux]
  | succ f ih =>
    intro used
    simp only [newConversationAux]
    cases hoc : (oracle used).2 with
    | ok cid => simp
    | storeErr p c =>
      by_cases hr : (p && c == dbErrDupUnique) = true
      · simp only [hr, if_true]
        have := ih (used + 1)
        omega
      · simp only [Bool.not_eq_true] at hr
        simp only [hr, Bool.false_eq_true, if_false]
        simp

theorem insertLineAux_used_le (oracle : Nat → Nat × InsertOutcome) :
    ∀ fuel used, (insertLineAux oracle fuel used).2 ≤ used + fuel := by
  intro fuel
  induction fuel with
  | zero => intro used; simp [insertLineAux]
  | succ f ih =>
    intro used
    simp only [insertLineAux]
    cases hoc : (oracle used).2 with
    | ok cid => simp
    | storeErr p c =>
      by_cases hr : (p && c == dbErrDupUnique) = true
      · simp only [hr, if_true]
        have := ih (used + 1)
        omega
      · simp only [Bool.not_eq_true] at hr
        simp only [hr, Bool.false_eq_true, if_false]
        simp

theorem newConversationAux_all_dup (heading : String) (oracle : Nat → Nat × InsertOutcome) :
    ∀ fuel used,
      (∀ i, used ≤ i → i < used + fuel → retryableDup (oracle i).2 = true) →
      newConversationAux heading oracle fuel used = (.exhausted, used + fuel) := by
  intro fuel
  induction fuel with
  | zero => intro used _; simp [newConversationAux]
  | succ f ih =>
    intro used h
    have h0 : retryableDup (oracle used).2 = true :=
      h used (Nat.le_refl _) (by omega)
    simp only [newConversationAux]
    cases hoc : (oracle used).2 with
    | ok cid => rw [hoc] at h0; simp [retryableDup] at h0
    | storeErr p c =>
      rw [hoc] at h0
      simp only [retryableDup] at h0
      simp only [h0, if_true]
      have := ih (used + 1) (fun i h1 h2 => h i (by omega) (by omega))
      rw [this]
      congr 1
      omega

theorem insertLineAux_all_dup (oracle : Nat → Nat × InsertOutcome) :
    ∀ fuel used,
      (∀ i, used ≤ i → i < used + fuel → retryableDup (oracle i).2 = true) →
      insertLineAux oracle fuel used = (.exhausted, used + fuel) := by
  intro fuel
  induction fuel with
  | zero => intro used _; simp [insertLineAux]
  | succ f ih =>
    intro used h
    have h0 : retryableDup (oracle used).2 = true :=
      h used (Nat.le_refl _) (by omega)
    simp only [insertLineAux]
    cases hoc : (oracle used).2 with
    | ok cid => rw [hoc] at h0; simp [retryableDup] at h0
    | storeErr p c =>
      rw [hoc] at h0
      simp only [retryableDup] at h0
      simp only [h0, if_true]
      have := ih (used + 1) (fun i h1 h2 => h i (by omega) (by omega))
      rw [this]
      congr 1
      omega

theorem newConversationAux_first_settles (heading : String)
    (oracle : Nat → Nat × InsertOutcome) :
    ∀ k fuel used, k < fuel →
      (∀ i, used ≤ i → i < used + k → retryableDup (oracle i).2 = true) →
      retryableDup (oracle (used + k)).2 = false →
      newConversationAux heading oracle fuel used =
        (match (oracle (used + k)).2 with
         | .ok cid => .created { id := "cv_" ++ formatBase36 (oracle (used + k)).1,
                                 heading := heading, seq := cid }
         | .storeErr p c => .storeErr p c,
         used + k + 1) := by
  intro k
  induction k with
  | zero =>
    intro fuel used hk _ hs
    obtain ⟨f, rfl⟩ : ∃ f, fuel = f + 1 := ⟨fuel - 1, by omega⟩
    simp only [Nat.add_zero] at hs ⊢
    simp only [newConversationAux]
    cases hoc : (oracle used).2 with
    | ok cid => simp
    | storeErr p c =>
      rw [hoc] at hs
      simp only [retryableDup] at hs
      simp only [hs, Bool.false_eq_true, if_false]
  | succ k ih =>
    intro fuel used hk h hs
    obtain ⟨f, rfl⟩ : ∃ f, fuel = f + 1 := ⟨fuel - 1, by omega⟩
    have h0 : retryableDup (oracle used).2 = true :=
      h used (Nat.le_refl _) (by omega)
    simp only [newConversationAux]
    cases hoc : (oracle used).2 with
    | ok cid => rw [hoc] at h0; simp [retryableDup] at h0
    | storeErr p c =>
      rw [hoc] at h0
      simp only [retryableDup] at h0
      simp only [h0, if_true]
      have harith : used + 1 + k = used + (k + 1) := by omega
      have := ih f (used + 1) (by omega)
        (fun i h1 h2 => h i (by omega) (by omega))
        (by rw [harith]; exact hs)
      rw [this, harith]

theorem insertLineAux_first_settles (oracle : Nat → Nat × InsertOutcome) :
    ∀ k fuel used, k < fuel →
      (∀ i, used ≤ i → i < used + k → retryableDup (oracle i).2 = true) →
      retryableDup (oracle (used + k)).2 = false →
      insertLineAux oracle fuel used =
        (match (oracle (used + k)).2 with
         | .ok _ => .created ("ln_" ++ formatBase36 (oracle (used + k)).1)
         | .storeErr p c => .storeErr p c,
         used + k + 1) := by
  intro k
  induction k with
  | zero =>
    intro fuel used hk _ hs
    obtain ⟨f, rfl⟩ : ∃ f, fuel = f + 1 := ⟨fuel - 1, by omega⟩
    simp only [Nat.add_zero] at hs ⊢
    simp only [insertLineAux]
    cases hoc : (oracle used).2 with
    | ok cid => simp
    | storeErr p c =>
      rw [hoc] at hs
      simp only [retryableDup] at hs
      simp only [hs, Bool.false_eq_true, if_false]
  | succ k ih =>
    intro fuel used hk h hs
    obtain ⟨f, rfl⟩ : ∃ f, fuel = f + 1 := ⟨fuel - 1, by omega⟩
    have h0 : retryableDup (oracle used).2 = true :=
      h used (Nat.le_refl _) (by omega)
    simp only [insertLineAux]
    cases hoc : (oracle used).2 with
    | ok cid => rw [hoc] at h0; simp [retryableDup] at h0
    | storeErr p c =>
      rw [hoc] at h0
      simp only [retryableDup] at h0
      simp only [h0, if_true]
      have harith : used + 1 + k = used + (k + 1) := by omega
      have := ih f (used + 1) (by omega)
        (fun i h1 h2 => h i (by omega) (by omega))
        (by rw [harith]; exact hs)
      rw [this, harith]

/-- C7: `NewConversation` and `InsertLine` make at most 16 insert
attempts; each attempt's identifier is the kind's literal glued to the
base-36 rendering of a fresh draw; a retry happens only on a `pq`
unique-violation (code 23505); any other store failure is returned
immediately after the attempt that hit it; 16 exhausted attempts yield
the internal "unable to insert" error instead of looping. -/
theorem insert_retry_discipline (heading convoID : String) (convos : List CRow)
    (oracle oracle2 : Nat → Nat × InsertOutcome) :
    ((NewConversation heading oracle).2 ≤ maxInsertRetries) ∧
    ((InsertLine convos convoID oracle2).2 ≤ maxInsertRetries) ∧
    ((∀ i, i < maxInsertRetries → retryableDup (oracle i).2 = true) →
      NewConversation heading oracle = (.exhausted, maxInsertRetries)) ∧
    (∀ k, k < maxInsertRetries → (∀ i, i < k → retryableDup (oracle i).2 = true) →
      retryableDup (oracle k).2 = false →
      NewConversation heading oracle =
        (match (oracle k).2 with
         | .ok cid => .created { id := "cv_" ++ formatBase36 (oracle k).1,
                                 heading := heading, seq := cid }
         | .storeErr p c => .storeErr p c, k + 1)) ∧
    ((∃ c ∈ convos, c.publicId = convoID) →
      ((∀ i, i < maxInsertRetries → retryableDup (oracle2 i).2 = true) →
        InsertLine convos convoID oracle2 = (.exhausted, maxInsertRetries)) ∧
      (∀ k, k < maxInsertRetries → (∀ i, i < k → retryableDup (oracle2 i).2 = true) →
        retryableDup (oracle2 k).2 = false →
        InsertLine convos convoID oracle2 =
          (match (oracle2 k).2 with
           | .ok _ => .created ("ln_" ++ formatBase36 (oracle2 k).1)
           | .storeErr p c => .storeErr p c, k + 1))) ∧
    ((∀ c ∈ convos, c.publicId ≠ convoID) →
      InsertLine convos convoID oracle2 = (.storeErr false "", 0)) := by
  have hfind : ∀ (h : ∃ c ∈ convos, c.publicId = convoID),
      InsertLine convos convoID oracle2 = insertLineAux oracle2 maxInsertRetries 0 := by
    intro h
    have : (convos.find? (fun c => c.publicId == convoID)).isSome := by
      rw [List.find?_isSome]
      rcases h with ⟨c, hc, he⟩
      exact ⟨c, hc, by simp [he]⟩
    unfold InsertLine
    cases hf : convos.find? (fun c => c.publicId == convoID) with
    | none => rw [hf] at this; simp at this
    | some c => rfl
  refine ⟨?_, ?_, ?_, ?_, ?_, ?_⟩
  · simpa using newConversationAux_used_le heading oracle maxInsertRetries 0
  · unfold InsertLine
    cases convos.find? (fun c => c.publicId == convoID) with
    | none => simp [maxInsertRetries]
    | some c => simpa using insertLineAux_used_le oracle2 maxInsertRetries 0
  · intro h
    unfold NewConversation
    have := newConversationAux_all_dup heading oracle maxInsertRetries 0
      (fun i _ h2 => h i (by omega))
    simpa using this
  · intro k hk h hs
    unfold NewConversation
    have := newConversationAux_first_settles heading oracle k maxInsertRetries 0 hk
      (fun i _ h2 => h i (by omega)) (by simpa using hs)
    simpa using this
  · intro hex
    refine ⟨?_, ?_⟩
    · intro h
      rw [hfind hex]
      have := insertLineAux_all_dup oracle2 maxInsertRetries 0
        (fun i _ h2 => h i (by omega))
      simpa using this
    · intro k hk h hs
      rw [hfind hex]
      have := insertLineAux_first_settles oracle2 k maxInsertRetries 0 hk
        (fun i _ h2 => h i (by omega)) (by simpa using hs)
      simpa using this
  · intro h
    have : convos.find? (fun c => c.publicId == convoID) = none := by
      rw [List.find?_eq_none]
      intro c hc
      simpa using h c hc
    unfold InsertLine
    rw [this]

/-- C7 witness: an oracle colliding on every draw exhausts after exactly
16 attempts; an oracle succeeding at once creates `ln_7` in 1 attempt. -/
theorem insert_retry_discipline_witness :
    NewConversation "hi" (fun i => (i, .storeErr true "23505")) = (.exhausted, 16) ∧
    InsertLine [⟨1, "cv_a", "h"⟩] "cv_a" (fun _ => (7, .ok 3)) = (.created "ln_7", 1) := by
  have h := insert_retry_discipline "hi" "cv_a" [⟨1, "cv_a", "h"⟩]
    (fun i => (i, .storeErr true "23505")) (fun _ => (7, .ok 3))
  constructor
  · exact (h.2.2.1 (by decide)).trans (by decide)
  · have h2 := (h.2.2.2.2.1 (by decide)).2 0 (by decide) (by omega) (by decide)
    exact h2.trans (by decide)

/-! ### C4: unresolvable cursors fail with CursorNotFound -/

theorem collect_not_found (seq : List Mood) (cursor : String) (cap : Nat)
    (h : ∀ x ∈ seq, (x.name == cursor) = false) :
    collectAfterCursor seq false cursor cap [] = (false, []) := by
  induction seq with
  | nil => rfl
  | cons m rest ih =>
    simp only [collectAfterCursor, Bool.false_eq_true, if_false,
      h m (List.mem_cons_self m rest)]
    exact ih (fun x hx => h x (List.mem_cons_of_mem m hx))

theorem listUserMoods_cursor_missing (tbl : List URow) (asc : Bool) (args : ListArgs)
    (hne : (if asc then args.after else args.before) ≠ "")
    (hrows : ∀ r ∈ tbl, foldEq r.name (if asc then args.after else args.before) = false) :
    listUserMoods tbl asc args = .error .cursorNotFound := by
  have hfind : findMoodRow tbl (if asc then args.after else args.before) = none := by
    unfold findMoodRow
    rw [List.find?_eq_none]
    intro r hr
    simp [hrows r hr]
  unfold listUserMoods resolveMoodCursor
  rw [if_neg hne, hfind]

theorem listBuiltinMoods_cursor_missing (asc : Bool) (args : ListArgs)
    (hne : (if asc then args.after else args.before) ≠ "")
    (hb : ∀ b ∈ builtinMoods, b.name ≠ (if asc then args.after else args.before)) :
    listBuiltinMoods asc args = .error .cursorNotFound := by
  have hstart : (args.after == "" && args.before == "") = false := by
    cases asc with
    | true =>
      simp only [if_true] at hne
      simp [hne]
    | false =>
      simp at hne
      simp [hne]
  have hcoll : collectAfterCursor (if asc then builtinMoods else builtinMoods.reverse) false
      (if asc then args.after else args.before) (args.limit + 1) [] = (false, []) := by
    apply collect_not_found
    intro x hx
    have hxb : x ∈ builtinMoods := by
      cases asc with
      | true => simpa using hx
      | false => exact List.mem_reverse.mp (by simpa using hx)
    simpa using hb x hxb
  simp only [listBuiltinMoods, hstart, hcoll]
  rfl

/-- C4: listing moods or conversations with an `After` or `Before`
cursor that names no live entry of the owner (no dynamic mood matches
case-insensitively, no built-in matches exactly, no conversation has
that public id) fails with `errCursorNotFound` in both directions and
never returns a successful result. -/
theorem list_invalid_cursor_fails (tbl : List URow) (ctbl : List CRow)
    (c : String) (limit : Nat) (hne : c ≠ "")
    (hrows : ∀ r ∈ tbl, foldEq r.name c = false)
    (hb : ∀ b ∈ builtinMoods, b.name ≠ c)
    (hcv : ∀ r ∈ ctbl, r.publicId ≠ c) :
    ListMoods tbl { before := "", after := c, limit := limit } = .error .cursorNotFound ∧
    ListMoods tbl { before := c, after := "", limit := limit } = .error .cursorNotFound ∧
    ListConversations ctbl { before := "", after := c, limit := limit } =
      .error .cursorNotFound ∧
    ListConversations ctbl { before := c, after := "", limit := limit } =
      .error .cursorNotFound := by
  have hcfind : ∀ ct : List CRow, (∀ r ∈ ct, r.publicId ≠ c) →
      ct.find? (fun r => r.publicId == c) = none := by
    intro ct h
    rw [List.find?_eq_none]
    intro r hr
    simpa using h r hr
  refine ⟨?_, ?_, ?_, ?_⟩
  · have hasc : sortAsc { before := "", after := c, limit := limit } = true := by
      simp [sortAsc, hne]
    have h1 := listUserMoods_cursor_missing tbl true
      { before := "", after := c, limit := limit } (by simpa) (by simpa using hrows)
    have h2 := listBuiltinMoods_cursor_missing true
      { before := "", after := c, limit := limit } (by simpa) (by simpa using hb)
    simp only [ListMoods, hasc, if_true, h1, h2]
    rfl
  · have hasc : sortAsc { before := c, after := "", limit := limit } = false := by
      simp [sortAsc, hne]
    have h1 := listUserMoods_cursor_missing tbl false
      { before := c, after := "", limit := limit } (by simpa) (by simpa using hrows)
    have h2 := listBuiltinMoods_cursor_missing false
      { before := c, after := "", limit := limit } (by simpa) (by simpa using hb)
    simp only [ListMoods, hasc, Bool.false_eq_true, if_false, h1, h2]
    rfl
  · have hasc : sortAsc { before := "", after := c, limit := limit } = true := by
      simp [sortAsc, hne]
    simp only [ListConversations, hasc, if_true]
    simp only [if_neg hne, hcfind ctbl hcv]
  · have hasc : sortAsc { before := c, after := "", limit := limit } = false := by
      simp [sortAsc, hne]
    simp only [ListConversations, hasc, Bool.false_eq_true, if_false]
    simp only [if_neg hne, hcfind ctbl hcv]

/-- C4 witness: the cursor "nope" against small stores. -/
theorem list_invalid_cursor_fails_witness :
    ListMoods [⟨1, "foo", "oo", "  "⟩] { before := "", after := "nope", limit := 3 } =
      .error .cursorNotFound ∧
    ListMoods [⟨1, "foo", "oo", "  "⟩] { before := "nope", after := "", limit := 3 } =
      .error .cursorNotFound ∧
    ListConversations [⟨1, "cv_a", "h"⟩] { before := "", after := "nope", limit := 3 } =
      .error .cursorNotFound ∧
    ListConversations [⟨1, "cv_a", "h"⟩] { before := "nope", after := "", limit := 3 } =
      .error .cursorNotFound :=
  list_invalid_cursor_fails [⟨1, "foo", "oo", "  "⟩] [⟨1, "cv_a", "h"⟩] "nope" 3
    (by decide) (by decide) (by decide) (by decide)

/-! ### C3: chained limit-1 pagination reproduces the global order -/

theorem foldEq_self (s : String) : foldEq s s = true := by
  simp [foldEq]

theorem findMoodRow_split (t1 t2 : List URow) (r : URow)
    (hdist : List.Pairwise (fun a b => foldEq a.name b.name = false) (t1 ++ r :: t2)) :
    findMoodRow (t1 ++ r :: t2) r.name = some r := by
  induction t1 with
  | nil =>
    unfold findMoodRow
    simp [List.find?_cons, foldEq_self]
  | cons a t1' ih =>
    have hpair := (List.pairwise_cons.mp hdist)
    have hskip : foldEq a.name r.name = false :=
      hpair.1 r (by simp)
    unfold findMoodRow at ih ⊢
    simp only [List.cons_append, List.find?_cons, hskip]
    exact ih hpair.2

theorem findMoodRow_mem (tbl : List URow) (r : URow) (hmem : r ∈ tbl)
    (hdist : List.Pairwise (fun a b => foldEq a.name b.name = false) tbl) :
    findMoodRow tbl r.name = some r := by
  obtain ⟨t1, t2, rfl⟩ := List.append_of_mem hmem
  exact findMoodRow_split t1 t2 r hdist

theorem natCast_lt_zero_decide (n : Nat) : decide ((n : Int) < 0) = false := by
  simp [Int.not_lt.mpr (Int.natCast_nonneg n)]

theorem filter_gt_sorted (t1 t2 : List URow) (r : URow)
    (hs : List.Pairwise (fun a b => a.intId < b.intId) (t1 ++ r :: t2)) :
    (t1 ++ r :: t2).filter (fun x => decide (r.intId < x.intId)) = t2 := by
  rw [List.pairwise_append] at hs
  obtain ⟨h1, h2, h12⟩ := hs
  rw [List.filter_append]
  have ht1 : t1.filter (fun x => decide (r.intId < x.intId)) = [] := by
    rw [List.filter_eq_nil_iff]
    intro a ha
    have := h12 a ha r (by simp)
    simp only [decide_eq_true_eq]
    omega
  have hr : (decide (r.intId < r.intId)) = false := by
    simp
  have ht2 : t2.filter (fun x => decide (r.intId < x.intId)) = t2 := by
    rw [List.filter_eq_self]
    intro a ha
    have := (List.pairwise_cons.mp h2).1 a ha
    simp only [decide_eq_true_eq]
    exact this
  simp [ht1, List.filter_cons, hr, ht2]

theorem filter_lt_sorted (t1 t2 : List URow) (r : URow)
    (hs : List.Pairwise (fun a b => b.intId < a.intId) (t1 ++ r :: t2)) :
    (t1 ++ r :: t2).filter (fun x => decide (x.intId < r.intId)) = t2 := by
  rw [List.pairwise_append] at hs
  obtain ⟨h1, h2, h12⟩ := hs
  rw [List.filter_append]
  have ht1 : t1.filter (fun x => decide (x.intId < r.intId)) = [] := by
    rw [List.filter_eq_nil_iff]
    intro a ha
    have := h12 a ha r (by simp)
    simp only [decide_eq_true_eq]
    omega
  have hr : (decide (r.intId < r.intId)) = false := by
    simp
  have ht2 : t2.filter (fun x => decide (x.intId < r.intId)) = t2 := by
    rw [List.filter_eq_self]
    intro a ha
    have := (List.pairwise_cons.mp h2).1 a ha
    simp only [decide_eq_true_eq]
    exact this
  simp [ht1, List.filter_cons, hr, ht2]

theorem collect_found (seq : List Mood) (cursor : String) (cap : Nat) :
    ∀ acc : List Mood, acc.length < cap →
      collectAfterCursor seq true cursor cap acc =
        (true, acc ++ seq.take (cap - acc.length)) := by
  induction seq with
  | nil => intro acc _; simp [collectAfterCursor]
  | cons m rest ih =>
    intro acc hlt
    simp only [collectAfterCursor, if_true]
    by_cases hfull : (acc ++ [m]).length = cap
    · have hc : cap - acc.length = 1 := by
        simp [List.length_append] at hfull
        omega
      simp [hfull, hc]
    · have hc2 : (acc ++ [m]).length < cap := by
        simp [List.length_append] at hfull ⊢
        omega
      have hbeq : ((acc ++ [m]).length == cap) = false := by
        simp only [beq_eq_false_iff_ne, ne_eq]
        exact hfull
      simp only [hbeq, Bool.false_eq_true, if_false]
      rw [ih _ hc2]
      have hc3 : cap - acc.length = (cap - (acc ++ [m]).length) + 1 := by
        simp [List.length_append]
        omega
      rw [hc3]
      simp [List.take_succ_cons]

theorem collect_scan (pre post : List Mood) (m : Mood) (cursor : String) (cap : Nat)
    (h1 : ∀ x ∈ pre, (x.name == cursor) = false)
    (h2 : (m.name == cursor) = true) (hcap : 0 < cap) :
    collectAfterCursor (pre ++ m :: post) false cursor cap [] = (true, post.take cap) := by
  induction pre with
  | nil =>
    simp only [List.nil_append, collectAfterCursor, Bool.false_eq_true, if_false, h2, if_true]
    have := collect_found post cursor cap [] (by simpa using hcap)
    simpa using this
  | cons a pre' ih =>
    simp only [List.cons_append, collectAfterCursor, Bool.false_eq_true, if_false,
      h1 a (by simp)]
    exact ih (fun x hx => h1 x (by simp [hx]))

theorem listUserMoods_asc_start (tbl : List URow) (b : String) (lim : Nat) :
    listUserMoods tbl true { before := b, after := "", limit := lim } =
      .ok ((tbl.map toUserMood).take lim,
           decide (lim < ((tbl.take (lim + 2)).map toUserMood).length)) := by
  have hstep : listUserMoods tbl true { before := b, after := "", limit := lim } =
      .ok (((tbl.filter fun r =>
          decide ((-1 : Int) < 0) ||
            (if true then decide ((-1 : Int) < (r.intId : Int))
             else decide ((r.intId : Int) < (-1 : Int)))).take (lim + 2) |>.map toUserMood).take lim,
        decide (lim < ((tbl.filter fun r =>
          decide ((-1 : Int) < 0) ||
            (if true then decide ((-1 : Int) < (r.intId : Int))
             else decide ((r.intId : Int) < (-1 : Int)))).take (lim + 2) |>.map toUserMood).length)) := rfl
  have hfilter : (tbl.filter fun r =>
      decide ((-1 : Int) < 0) ||
        (if true then decide ((-1 : Int) < (r.intId : Int))
         else decide ((r.intId : Int) < (-1 : Int)))) = tbl := by
    rw [List.filter_eq_self]
    intro a _
    simp
  rw [hstep, hfilter]
  have htake : ((tbl.take (lim + 2)).map toUserMood).take lim = (tbl.map toUserMood).take lim := by
    rw [List.map_take, List.take_take]
    congr 1
    omega
  rw [htake]

theorem listUserMoods_desc_start (tbl : List URow) (a : String) (lim : Nat) :
    listUserMoods tbl false { before := "", after := a, limit := lim } =
      .ok ((tbl.reverse.map toUserMood).take lim,
           decide (lim < ((tbl.reverse.take (lim + 2)).map toUserMood).length)) := by
  have hstep : listUserMoods tbl false { before := "", after := a, limit := lim } =
      .ok (((tbl.reverse.filter fun r =>
          decide ((-1 : Int) < 0) ||
            (if false then decide ((-1 : Int) < (r.intId : Int))
             else decide ((r.intId : Int) < (-1 : Int)))).take (lim + 2) |>.map toUserMood).take lim,
        decide (lim < ((tbl.reverse.filter fun r =>
          decide ((-1 : Int) < 0) ||
            (if false then decide ((-1 : Int) < (r.intId : Int))
             else decide ((r.intId : Int) < (-1 : Int)))).take (lim + 2) |>.map toUserMood).length)) := rfl
  have hfilter : (tbl.reverse.filter fun r =>
      decide ((-1 : Int) < 0) ||
        (if false then decide ((-1 : Int) < (r.intId : Int))
         else decide ((r.intId : Int) < (-1 : Int)))) = tbl.reverse := by
    rw [List.filter_eq_self]
    intro a _
    simp
  rw [hstep, hfilter]
  have htake : ((tbl.reverse.take (lim + 2)).map toUserMood).take lim =
      (tbl.reverse.map toUserMood).take lim := by
    rw [List.map_take, List.take_take]
    congr 1
    omega
  rw [htake]

theorem listUserMoods_asc_cursor (t1 t2 : List URow) (r : URow) (b : String) (lim : Nat)
    (hname : r.name ≠ "")
    (hdist : List.Pairwise (fun x y => foldEq x.name y.name = false) (t1 ++ r :: t2))
    (hsort : List.Pairwise (fun x y => x.intId < y.intId) (t1 ++ r :: t2)) :
    listUserMoods (t1 ++ r :: t2) true { before := b, after := r.name, limit := lim } =
      .ok ((t2.map toUserMood).take lim,
           decide (lim < ((t2.take (lim + 2)).map toUserMood).length)) := by
  have hres : resolveMoodCursor (t1 ++ r :: t2) r.name = .ok (r.intId : Int) := by
    unfold resolveMoodCursor
    rw [if_neg hname, findMoodRow_split t1 t2 r hdist]
  have hstep0 : listUserMoods (t1 ++ r :: t2) true { before := b, after := r.name, limit := lim } =
      match resolveMoodCursor (t1 ++ r :: t2) r.name with
      | .error e => .error e
      | .ok cid =>
        .ok ((((t1 ++ r :: t2).filter fun x =>
            decide (cid < 0) ||
              (if true then decide (cid < (x.intId : Int))
               else decide ((x.intId : Int) < cid))).take (lim + 2) |>.map toUserMood).take lim,
          decide (lim < (((t1 ++ r :: t2).filter fun x =>
            decide (cid < 0) ||
              (if true then decide (cid < (x.intId : Int))
               else decide ((x.intId : Int) < cid))).take (lim + 2) |>.map toUserMood).length)) := rfl
  rw [hstep0, hres]
  have hfilter : ((t1 ++ r :: t2).filter fun x =>
      decide (((r.intId : Nat) : Int) < 0) ||
        decide (((r.intId : Nat) : Int) < (x.intId : Int))) = t2 := by
    rw [List.filter_congr (q := fun x => decide (r.intId < x.intId))]
    · exact filter_gt_sorted t1 t2 r hsort
    · intro x _
      simp only [natCast_lt_zero_decide, Bool.false_or]
      simp
  simp only [eq_self_iff_true, if_true]
  rw [hfilter]
  have htake : ((t2.take (lim + 2)).map toUserMood).take lim = (t2.map toUserMood).take lim := by
    rw [List.map_take, List.take_take]
    congr 1
    omega
  rw [htake]

theorem listUserMoods_desc_cursor (tbl t1 t2 : List URow) (r : URow) (a : String) (lim : Nat)
    (hrev : tbl.reverse = t1 ++ r :: t2) (hname : r.name ≠ "")
    (hdist : List.Pairwise (fun x y => foldEq x.name y.name = false) tbl)
    (hsort : List.Pairwise (fun x y => x.intId < y.intId) tbl) :
    listUserMoods tbl false { before := r.name, after := a, limit := lim } =
      .ok ((t2.map toUserMood).take lim,
           decide (lim < ((t2.take (lim + 2)).map toUserMood).length)) := by
  have hmem : r ∈ tbl := by
    rw [← List.mem_reverse, hrev]
    simp
  have hres : resolveMoodCursor tbl r.name = .ok (r.intId : Int) := by
    unfold resolveMoodCursor
    rw [if_neg hname, findMoodRow_mem tbl r hmem hdist]
  have hstep0 : listUserMoods tbl false { before := r.name, after := a, limit := lim } =
      match resolveMoodCursor tbl r.name with
      | .error e => .error e
      | .ok cid =>
        .ok (((tbl.reverse.filter fun x =>
            decide (cid < 0) ||
              (if false then decide (cid < (x.intId : Int))
               else decide ((x.intId : Int) < cid))).take (lim + 2) |>.map toUserMood).take lim,
          decide (lim < ((tbl.reverse.filter fun x =>
            decide (cid < 0) ||
              (if false then decide (cid < (x.intId : Int))
               else decide ((x.intId : Int) < cid))).take (lim + 2) |>.map toUserMood).length)) := rfl
  rw [hstep0, hres]
  have hsortrev : List.Pairwise (fun x y => y.intId < x.intId) (t1 ++ r :: t2) := by
    rw [← hrev]
    exact List.pairwise_reverse.mpr hsort
  have hfilter : (tbl.reverse.filter fun x =>
      decide (((r.intId : Nat) : Int) < 0) ||
        decide ((x.intId : Int) < ((r.intId : Nat) : Int))) = t2 := by
    rw [hrev, List.filter_congr (q := fun x => decide (x.intId < r.intId))]
    · exact filter_lt_sorted t1 t2 r hsortrev
    · intro x _
      simp only [natCast_lt_zero_decide, Bool.false_or]
      simp
  simp only [Bool.false_eq_true, if_false]
  rw [hfilter]
  have htake : ((t2.take (lim + 2)).map toUserMood).take lim = (t2.map toUserMood).take lim := by
    rw [List.map_take, List.take_take]
    congr 1
    omega
  rw [htake]

theorem listBuiltinMoods_cursor_asc (bp bs : List Mood) (m : Mood) (b : String) (lim : Nat)
    (hB : builtinMoods = bp ++ m :: bs)
    (hpre : ∀ x ∈ bp, (x.name == m.name) = false)
    (hname : m.name ≠ "") :
    listBuiltinMoods true { before := b, after := m.name, limit := lim } =
      .ok (bs.take lim, decide (lim < (bs.take (lim + 1)).length)) := by
  have hstart : ((m.name == "") && (b == "")) = false := by
    have : (m.name == "") = false := by simpa using hname
    simp [this]
  have hcoll : collectAfterCursor builtinMoods false m.name (lim + 1) [] =
      (true, bs.take (lim + 1)) := by
    rw [hB]
    exact collect_scan bp bs m m.name (lim + 1) hpre (by simp) (by omega)
  have hstep : listBuiltinMoods true { before := b, after := m.name, limit := lim } =
      (if !(collectAfterCursor builtinMoods ((m.name == "") && (b == "")) m.name (lim + 1) []).1
       then .error .cursorNotFound
       else .ok ((collectAfterCursor builtinMoods ((m.name == "") && (b == "")) m.name (lim + 1) []).2.take lim,
         decide (lim < (collectAfterCursor builtinMoods ((m.name == "") && (b == "")) m.name (lim + 1) []).2.length))) := rfl
  rw [hstep, hstart, hcoll]
  simp only [Bool.not_true, Bool.false_eq_true, if_false]
  have htake : (bs.take (lim + 1)).take lim = bs.take lim := by
    rw [List.take_take]
    congr 1
    omega
  rw [htake]

theorem listBuiltinMoods_cursor_desc (bp bs : List Mood) (m : Mood) (a : String) (lim : Nat)
    (hB : builtinMoods.reverse = bp ++ m :: bs)
    (hpre : ∀ x ∈ bp, (x.name == m.name) = false)
    (hname : m.name ≠ "") :
    listBuiltinMoods false { before := m.name, after := a, limit := lim } =
      .ok (bs.take lim, decide (lim < (bs.take (lim + 1)).length)) := by
  have hstart : ((a == "") && (m.name == "")) = false := by
    have : (m.name == "") = false := by simpa using hname
    simp [this]
  have hcoll : collectAfterCursor builtinMoods.reverse false m.name (lim + 1) [] =
      (true, bs.take (lim + 1)) := by
    rw [hB]
    exact collect_scan bp bs m m.name (lim + 1) hpre (by simp) (by omega)
  have hstep : listBuiltinMoods false { before := m.name, after := a, limit := lim } =
      (if !(collectAfterCursor builtinMoods.reverse ((a == "") && (m.name == "")) m.name (lim + 1) []).1
       then .error .cursorNotFound
       else .ok ((collectAfterCursor builtinMoods.reverse ((a == "") && (m.name == "")) m.name (lim + 1) []).2.take lim,
         decide (lim < (collectAfterCursor builtinMoods.reverse ((a == "") && (m.name == "")) m.name (lim + 1) []).2.length))) := rfl
  rw [hstep, hstart, hcoll]
  simp only [Bool.not_true, Bool.false_eq_true, if_false]
  have htake : (bs.take (lim + 1)).take lim = bs.take lim := by
    rw [List.take_take]
    congr 1
    omega
  rw [htake]

theorem ListMoods_asc_ok (tbl : List URow) (args : ListArgs) (moods0 : List Mood)
    (hm0 : Bool) (more : List Mood) (hm : Bool)
    (hasc : sortAsc args = true)
    (hfirst : listUserMoods tbl true args = .ok (moods0, hm0))
    (hneq : (moods0.length == args.limit - moods0.length) = false)
    (hsecond : listBuiltinMoods true
      { before := "", after := "", limit := args.limit - moods0.length } = .ok (more, hm)) :
    ListMoods tbl args = .ok (moods0 ++ more, hm) := by
  simp only [ListMoods, hasc, eq_self_iff_true, if_true, hfirst, hneq,
    Bool.false_eq_true, if_false, hsecond]

theorem ListMoods_desc_ok (tbl : List URow) (args : ListArgs) (moods0 : List Mood)
    (hm0 : Bool) (more : List Mood) (hm : Bool)
    (hasc : sortAsc args = false)
    (hfirst : listBuiltinMoods false args = .ok (moods0, hm0))
    (hneq : (moods0.length == args.limit - moods0.length) = false)
    (hsecond : listUserMoods tbl false
      { before := "", after := "", limit := args.limit - moods0.length } = .ok (more, hm)) :
    ListMoods tbl args = .ok (moods0 ++ more, hm) := by
  simp only [ListMoods, hasc, Bool.false_eq_true, if_false, hfirst, hneq, hsecond]

theorem ListMoods_asc_fall (tbl : List URow) (args : ListArgs)
    (hasc : sortAsc args = true)
    (hfirst : listUserMoods tbl true args = .error .cursorNotFound) :
    ListMoods tbl args = listBuiltinMoods true args := by
  cases h2 : listBuiltinMoods true args with
  | error e =>
    simp only [ListMoods, hasc, eq_self_iff_true, if_true, hfirst, bne_self_eq_false,
      Bool.false_eq_true, if_false, h2]
  | ok p =>
    obtain ⟨more, hm⟩ := p
    simp only [ListMoods, hasc, eq_self_iff_true, if_true, hfirst, bne_self_eq_false,
      Bool.false_eq_true, if_false, h2]

theorem ListMoods_desc_fall (tbl : List URow) (args : ListArgs)
    (hasc : sortAsc args = false)
    (hfirst : listBuiltinMoods false args = .error .cursorNotFound) :
    ListMoods tbl args = listUserMoods tbl false args := by
  cases h2 : listUserMoods tbl false args with
  | error e =>
    simp only [ListMoods, hasc, Bool.false_eq_true, if_false, hfirst, bne_self_eq_false, h2]
  | ok p =>
    obtain ⟨more, hm⟩ := p
    simp only [ListMoods, hasc, Bool.false_eq_true, if_false, hfirst, bne_self_eq_false, h2]

theorem builtin_names_ne_empty : ∀ b ∈ builtinMoods, b.name ≠ "" := by decide

theorem builtin_pairwise_names :
    List.Pairwise (fun a b => (a.name == b.name) = false) builtinMoods := by decide

theorem builtin_rev_pairwise_names :
    List.Pairwise (fun a b => (a.name == b.name) = false) builtinMoods.reverse := by decide

theorem builtin_pre_distinct (bp bs : List Mood) (m : Mood)
    (hB : builtinMoods = bp ++ m :: bs) : ∀ x ∈ bp, (x.name == m.name) = false := by
  have hp := builtin_pairwise_names
  rw [hB, List.pairwise_append] at hp
  intro x hx
  exact hp.2.2 x hx m (by simp)

theorem builtin_rev_pre_distinct (bp bs : List Mood) (m : Mood)
    (hB : builtinMoods.reverse = bp ++ m :: bs) : ∀ x ∈ bp, (x.name == m.name) = false := by
  have hp := builtin_rev_pairwise_names
  rw [hB, List.pairwise_append] at hp
  intro x hx
  exact hp.2.2 x hx m (by simp)

theorem builtin_mem_of_split (bp bs : List Mood) (m : Mood)
    (hB : builtinMoods = bp ++ m :: bs) : m ∈ builtinMoods := by
  rw [hB]
  simp

theorem builtin_mem_of_rev_split (bp bs : List Mood) (m : Mood)
    (hB : builtinMoods.reverse = bp ++ m :: bs) : m ∈ builtinMoods := by
  rw [← List.mem_reverse, hB]
  simp

theorem pageF_start_eq (tbl : List URow) :
    ∃ hm, ListMoods tbl { before := "", after := "", limit := 1 } =
      .ok ((globalList tbl).take 1, hm) := by
  cases tbl with
  | nil => exact ⟨true, by decide⟩
  | cons r t =>
    refine ⟨true, ?_⟩
    have hres := ListMoods_asc_ok (r :: t) { before := "", after := "", limit := 1 }
      _ _ [] true (by decide) (listUserMoods_asc_start (r :: t) "" 1)
      (show (1 == 1 - 1) = false by decide)
      (show listBuiltinMoods true { before := "", after := "", limit := 0 } =
        .ok ([], true) by decide)
    rw [hres]
    simp [globalList]

theorem pageF_user_eq (t1 t2 : List URow) (r : URow)
    (hname : r.name ≠ "")
    (hdist : List.Pairwise (fun x y => foldEq x.name y.name = false) (t1 ++ r :: t2))
    (hsort : List.Pairwise (fun x y => x.intId < y.intId) (t1 ++ r :: t2)) :
    ∃ hm, ListMoods (t1 ++ r :: t2) { before := "", after := r.name, limit := 1 } =
      .ok ((t2.map toUserMood ++ builtinMoods).take 1, hm) := by
  have hasc : sortAsc { before := "", after := r.name, limit := 1 } = true := by
    simp [sortAsc, hname]
  have hfirst := listUserMoods_asc_cursor t1 t2 r "" 1 hname hdist hsort
  cases t2 with
  | nil =>
    refine ⟨true, ?_⟩
    have hres := ListMoods_asc_ok (t1 ++ r :: []) { before := "", after := r.name, limit := 1 }
      _ _ [⟨"default", "oo", "  ", false, 0⟩] true hasc hfirst
      (show (0 == 1 - 0) = false by decide)
      (show listBuiltinMoods true { before := "", after := "", limit := 1 } =
        .ok ([⟨"default", "oo", "  ", false, 0⟩], true) by decide)
    rw [hres]
    simp [builtinMoods]
  | cons r2 t2' =>
    refine ⟨true, ?_⟩
    have hres := ListMoods_asc_ok (t1 ++ r :: r2 :: t2')
      { before := "", after := r.name, limit := 1 }
      _ _ [] true hasc hfirst
      (show (1 == 1 - 1) = false by decide)
      (show listBuiltinMoods true { before := "", after := "", limit := 0 } =
        .ok ([], true) by decide)
    rw [hres]
    simp

theorem pageF_builtin_eq (tbl : List URow) (bp bs : List Mood) (m : Mood)
    (hB : builtinMoods = bp ++ m :: bs)
    (hfold : ∀ r ∈ tbl, ∀ b ∈ builtinMoods, foldEq r.name b.name = false) :
    ∃ hm, ListMoods tbl { before := "", after := m.name, limit := 1 } =
      .ok (bs.take 1, hm) := by
  have hmem := builtin_mem_of_split bp bs m hB
  have hname : m.name ≠ "" := builtin_names_ne_empty m hmem
  have hasc : sortAsc { before := "", after := m.name, limit := 1 } = true := by
    simp [sortAsc, hname]
  have hfirst : listUserMoods tbl true { before := "", after := m.name, limit := 1 } =
      .error .cursorNotFound := by
    apply listUserMoods_cursor_missing
    · exact hname
    · exact fun r hr => hfold r hr m hmem
  have h : ListMoods tbl { before := "", after := m.name, limit := 1 } =
      .ok (bs.take 1, decide (1 < (bs.take (1 + 1)).length)) := by
    rw [ListMoods_asc_fall tbl _ hasc hfirst,
      listBuiltinMoods_cursor_asc bp bs m "" 1 hB (builtin_pre_distinct bp bs m hB) hname]
  exact ⟨_, h⟩

theorem pageB_builtin_eq (tbl : List URow) (bp bs : List Mood) (m : Mood)
    (hB : builtinMoods.reverse = bp ++ m :: bs) :
    ∃ hm, ListMoods tbl { before := m.name, after := "", limit := 1 } =
      .ok ((bs ++ (tbl.map toUserMood).reverse).take 1, hm) := by
  have hmem := builtin_mem_of_rev_split bp bs m hB
  have hname : m.name ≠ "" := builtin_names_ne_empty m hmem
  have hasc : sortAsc { before := m.name, after := "", limit := 1 } = false := by
    simp [sortAsc, hname]
  have hfirst := listBuiltinMoods_cursor_desc bp bs m "" 1 hB
    (builtin_rev_pre_distinct bp bs m hB) hname
  cases bs with
  | nil =>
    have hfirst2 : listBuiltinMoods false { before := m.name, after := "", limit := 1 } =
        .ok ([], false) := by
      rw [hfirst]
      rfl
    have hres := ListMoods_desc_ok tbl { before := m.name, after := "", limit := 1 }
      [] false _ _ hasc hfirst2
      (show (0 == 1 - 0) = false by decide)
      (listUserMoods_desc_start tbl "" 1)
    have h : ListMoods tbl { before := m.name, after := "", limit := 1 } =
        .ok ((([] : List Mood) ++ (tbl.map toUserMood).reverse).take 1,
          decide (1 < ((tbl.reverse.take (1 + 2)).map toUserMood).length)) := by
      rw [hres]
      simp [List.map_reverse]
    exact ⟨_, h⟩
  | cons m2 bs' =>
    have hfirst2 : listBuiltinMoods false { before := m.name, after := "", limit := 1 } =
        .ok ([m2], decide (1 < ((m2 :: bs').take (1 + 1)).length)) := by
      rw [hfirst]
      rfl
    have hres := ListMoods_desc_ok tbl { before := m.name, after := "", limit := 1 }
      [m2] _ _ _ hasc hfirst2
      (show (1 == 1 - 1) = false by decide)
      (listUserMoods_desc_start tbl "" 0)
    have h : ListMoods tbl { before := m.name, after := "", limit := 1 } =
        .ok (((m2 :: bs') ++ (tbl.map toUserMood).reverse).take 1,
          decide (0 < ((tbl.reverse.take (0 + 2)).map toUserMood).length)) := by
      rw [hres]
      simp
    exact ⟨_, h⟩

theorem pageB_user_eq (tbl t1 t2 : List URow) (r : URow)
    (hrev : tbl.reverse = t1 ++ r :: t2) (hname : r.name ≠ "")
    (hdist : List.Pairwise (fun x y => foldEq x.name y.name = false) tbl)
    (hsort : List.Pairwise (fun x y => x.intId < y.intId) tbl)
    (hfold : ∀ rr ∈ tbl, ∀ b ∈ builtinMoods, foldEq rr.name b.name = false) :
    ∃ hm, ListMoods tbl { before := r.name, after := "", limit := 1 } =
      .ok ((t2.map toUserMood).take 1, hm) := by
  have hasc : sortAsc { before := r.name, after := "", limit := 1 } = false := by
    simp [sortAsc, hname]
  have hmem : r ∈ tbl := by
    rw [← List.mem_reverse, hrev]
    simp
  have hbne : ∀ b ∈ builtinMoods, b.name ≠ r.name := by
    intro b hb heq
    have hff := hfold r hmem b hb
    rw [heq] at hff
    simp [foldEq_self] at hff
  have hfirst : listBuiltinMoods false { before := r.name, after := "", limit := 1 } =
      .error .cursorNotFound := by
    apply listBuiltinMoods_cursor_missing
    · exact hname
    · exact hbne
  have h : ListMoods tbl { before := r.name, after := "", limit := 1 } =
      .ok ((t2.map toUserMood).take 1,
        decide (1 < ((t2.take (1 + 2)).map toUserMood).length)) := by
    rw [ListMoods_desc_fall tbl _ hasc hfirst,
      listUserMoods_desc_cursor tbl t1 t2 r "" 1 hrev hname hdist hsort]
  exact ⟨_, h⟩

theorem pageAfter_of_align (tbl : List URow) (c : String) (s : List Mood)
    (hinv : moodsInvariant tbl) (hal : FAlign tbl c s) :
    pageAfter tbl c = s.take 1 := by
  obtain ⟨hsort, hdist, hfold, hnames⟩ := hinv
  cases hal with
  | start =>
    obtain ⟨hm, heq⟩ := pageF_start_eq tbl
    simp [pageAfter, heq]
  | user t1 t2 r htbl =>
    subst htbl
    have hname : r.name ≠ "" := hnames r (by simp)
    obtain ⟨hm, heq⟩ := pageF_user_eq t1 t2 r hname hdist hsort
    simp [pageAfter, heq]
  | builtin bp bs m hB =>
    obtain ⟨hm, heq⟩ := pageF_builtin_eq tbl bp s m hB hfold
    simp [pageAfter, heq]

theorem pageBefore_of_align (tbl : List URow) (c : String) (s : List Mood)
    (hinv : moodsInvariant tbl) (hal : BAlign tbl c s) :
    pageBefore tbl c = s.take 1 := by
  obtain ⟨hsort, hdist, hfold, hnames⟩ := hinv
  cases hal with
  | builtin bp bs m hB =>
    obtain ⟨hm, heq⟩ := pageB_builtin_eq tbl bp bs m hB
    simp [pageBefore, heq]
  | user t1 t2 r hrev =>
    have hmem : r ∈ tbl := by
      rw [← List.mem_reverse, hrev]
      simp
    have hname : r.name ≠ "" := hnames r hmem
    obtain ⟨hm, heq⟩ := pageB_user_eq tbl t1 t2 r hrev hname hdist hsort hfold
    simp [pageBefore, heq]

theorem FAlign_step (tbl : List URow) (c : String) (m : Mood) (rest s : List Mood)
    (hal : FAlign tbl c s) (hs : s = m :: rest) : FAlign tbl m.name rest := by
  cases hal with
  | start =>
    cases htbl : tbl with
    | nil =>
      rw [htbl] at hs
      simp only [globalList, List.map_nil, List.nil_append] at hs
      exact FAlign.builtin [] rest m (by simpa using hs)
    | cons r t =>
      rw [htbl] at hs
      simp only [globalList, List.map_cons, List.cons_append, List.cons.injEq] at hs
      obtain ⟨hm1, hrest⟩ := hs
      rw [← hm1, ← hrest]
      exact FAlign.user [] t r rfl
  | user t1 t2 r htbl =>
    cases t2 with
    | nil =>
      simp only [List.map_nil, List.nil_append] at hs
      exact FAlign.builtin [] rest m (by simpa using hs)
    | cons r2 t2' =>
      simp only [List.map_cons, List.cons_append, List.cons.injEq] at hs
      obtain ⟨hm1, hrest⟩ := hs
      rw [← hm1, ← hrest]
      exact FAlign.user (t1 ++ [r]) t2' r2 (by rw [htbl]; simp)
  | builtin bp bs m0 hB =>
    exact FAlign.builtin (bp ++ [m0]) rest m (by rw [hB, hs]; simp)

theorem BAlign_step (tbl : List URow) (c : String) (m : Mood) (rest s : List Mood)
    (hal : BAlign tbl c s) (hs : s = m :: rest) : BAlign tbl m.name rest := by
  cases hal with
  | builtin bp bs m0 hB =>
    cases bs with
    | nil =>
      simp only [List.nil_append] at hs
      rw [← List.map_reverse] at hs
      cases htr : tbl.reverse with
      | nil =>
        rw [htr] at hs
        simp at hs
      | cons r t2 =>
        rw [htr] at hs
        simp only [List.map_cons, List.cons.injEq] at hs
        obtain ⟨hm1, hrest⟩ := hs
        rw [← hm1, ← hrest]
        exact BAlign.user [] t2 r htr
    | cons m2 bs' =>
      simp only [List.cons_append, List.cons.injEq] at hs
      obtain ⟨hm1, hrest⟩ := hs
      rw [← hm1, ← hrest]
      exact BAlign.builtin (bp ++ [m0]) bs' m2 (by rw [hB]; simp)
  | user t1 t2 r hrev =>
    cases t2 with
    | nil => simp at hs
    | cons r2 t2' =>
      simp only [List.map_cons, List.cons.injEq] at hs
      obtain ⟨hm1, hrest⟩ := hs
      rw [← hm1, ← hrest]
      exact BAlign.user (t1 ++ [r]) t2' r2 (by rw [hrev]; simp)

theorem chainF_of_align (tbl : List URow) (hinv : moodsInvariant tbl) :
    ∀ fuel c s, FAlign tbl c s → s.length ≤ fuel → chainForwardAux tbl c fuel = s := by
  intro fuel
  induction fuel with
  | zero =>
    intro c s _ hle
    cases s with
    | nil => rfl
    | cons a as => simp at hle
  | succ f ih =>
    intro c s hal hle
    have hpage := pageAfter_of_align tbl c s hinv hal
    cases s with
    | nil =>
      simp only [chainForwardAux]
      rw [hpage]
      rfl
    | cons m rest =>
      have hpage2 : pageAfter tbl c = [m] := by
        rw [hpage]
        rfl
      simp only [chainForwardAux, hpage2]
      congr 1
      exact ih m.name rest (FAlign_step tbl c m rest (m :: rest) hal rfl) (by simpa using hle)

theorem chainB_of_align (tbl : List URow) (hinv : moodsInvariant tbl) :
    ∀ fuel c s, BAlign tbl c s → s.length ≤ fuel → chainBackwardAux tbl c fuel = s := by
  intro fuel
  induction fuel with
  | zero =>
    intro c s _ hle
    cases s with
    | nil => rfl
    | cons a as => simp at hle
  | succ f ih =>
    intro c s hal hle
    have hpage := pageBefore_of_align tbl c s hinv hal
    cases s with
    | nil =>
      simp only [chainBackwardAux]
      rw [hpage]
      rfl
    | cons m rest =>
      have hpage2 : pageBefore tbl c = [m] := by
        rw [hpage]
        rfl
      simp only [chainBackwardAux, hpage2]
      congr 1
      exact ih m.name rest (BAlign_step tbl c m rest (m :: rest) hal rfl) (by simpa using hle)

/-- C3: for every owner state satisfying the table invariants, repeated
`ListMoods` calls with `limit = 1`, chaining each returned item's name
as the next `After` cursor, reproduce the full global order exactly;
chaining `Before` cursors starting from the last element of the global
order reproduces its reverse exactly. -/
theorem listMoods_pagination_total_order (tbl : List URow) (hinv : moodsInvariant tbl) :
    chainForward tbl (tbl.length + 8) = globalList tbl ∧
    chainBackward tbl (tbl.length + 8) = (globalList tbl).reverse := by
  have hlen : (globalList tbl).length = tbl.length + 8 := by
    simp [globalList, builtinMoods]
  constructor
  · unfold chainForward
    exact chainF_of_align tbl hinv _ "" (globalList tbl) FAlign.start (by rw [hlen])
  · have hB7 : builtinMoods = builtinMoods.take 7 ++ [⟨"young", "..", "  ", false, 0⟩] := rfl
    have hlast : (globalList tbl).getLast? = some ⟨"young", "..", "  ", false, 0⟩ := by
      rw [globalList, hB7, ← List.append_assoc]
      exact List.getLast?_concat _
    have halign : BAlign tbl (Mood.name ⟨"young", "..", "  ", false, 0⟩)
        ([⟨"wired", "OO", "  ", false, 0⟩, ⟨"tired", "--", "  ", false, 0⟩,
          ⟨"stoned", "**", "U ", false, 0⟩, ⟨"greedy", "$$", "  ", false, 0⟩,
          ⟨"dead", "xx", "U ", false, 0⟩, ⟨"borg", "==", "  ", false, 0⟩,
          ⟨"default", "oo", "  ", false, 0⟩] ++ (tbl.map toUserMood).reverse) :=
      BAlign.builtin [] _ _ rfl
    have hchain := chainB_of_align tbl hinv (tbl.length + 8) _ _ halign
      (by simp)
    simp only [chainBackward, hlast]
    rw [hchain]
    rw [globalList, List.reverse_append]
    rfl

/-- C3 witness: an owner with two dynamic moods. -/
theorem listMoods_pagination_total_order_witness :
    moodsInvariant [⟨1, "foo", "oo", "  "⟩, ⟨3, "bar", "--", "  "⟩] ∧
    chainForward [⟨1, "foo", "oo", "  "⟩, ⟨3, "bar", "--", "  "⟩]
      ([(⟨1, "foo", "oo", "  "⟩ : URow), ⟨3, "bar", "--", "  "⟩].length + 8) =
      globalList [⟨1, "foo", "oo", "  "⟩, ⟨3, "bar", "--", "  "⟩] ∧
    chainBackward [⟨1, "foo", "oo", "  "⟩, ⟨3, "bar", "--", "  "⟩]
      ([(⟨1, "foo", "oo", "  "⟩ : URow), ⟨3, "bar", "--", "  "⟩].length + 8) =
      (globalList [⟨1, "foo", "oo", "  "⟩, ⟨3, "bar", "--", "  "⟩]).reverse := by
  have hinv : moodsInvariant [⟨1, "foo", "oo", "  "⟩, ⟨3, "bar", "--", "  "⟩] := by
    constructor
    · decide
    constructor
    · decide
    constructor
    · decide
    · decide
  exact ⟨hinv, (listMoods_pagination_total_order _ hinv).1,
    (listMoods_pagination_total_order _ hinv).2⟩

end Saypi
